import Mathlib

/-!
# Verification of the debounce controller in `useDebouncedCallback.ts`

This file gives a shallow embedding of the timing state machine implemented
by `src/useDebouncedCallback.ts` (the `use-debounce` package) and proves or
refutes the specification claims about it.

Modelling conventions:
* Timestamps and durations are `Int` (milliseconds).  JavaScript arithmetic
  on `null` coerces it to `0`, which `jsNum` reproduces; JavaScript
  truthiness of a nullable number (`!x`) is reproduced by `truthyInt` /
  `truthyHandle` (both `null` and `0` are falsy).
* The target function is an abstract `f : List α → ρ`; `this`-binding is
  dropped (the spec's design notes call for exactly that).
* The host Timer Scheduler is modelled explicitly: `liveTimers` is the list
  of scheduled-and-not-yet-fired callbacks `(handle, dueTime)`; `setTimeout`
  returns fresh handles starting from 1 and clamps negative delays to 0.
  `lastDelay` records the raw delay argument most recently passed to the
  scheduler (observable at the scheduler interface).
* `invocations` is the observable log of dispatches to the target function,
  newest first.
* The code path modelled for scheduling is the `setTimeout` path, which is
  the one taken whenever a numeric `wait` is supplied (`useRAF` is true only
  when `wait` is undefined/NaN, see `useRAF` below).
-/

/-- JavaScript number coercion of a nullable number: `null` becomes `0`. -/
def jsNum : Option Int → Int
  | none => 0
  | some n => n

/-- JavaScript truthiness of a nullable number: `null` and `0` are falsy. -/
def truthyInt : Option Int → Bool
  | none => false
  | some n => n != 0

/-- JavaScript truthiness of a nullable timer handle (`null` and `0` falsy). -/
def truthyHandle : Option Nat → Bool
  | none => false
  | some h => h != 0

/-- The construction-time configuration of the controller:
`wait`, `leading`, `trailing`, `maxing = 'maxWait' in options`, and the
normalised `maxWait` (meaningful only when `maxing` is set). -/
structure Cfg where
  wait : Int
  leading : Bool
  trailing : Bool
  maxing : Bool
  maxWait : Int
  deriving Repr, DecidableEq

/-- The mutable state of one controller instance: the refs of the hook
(`lastCallTime`, `lastInvokeTime`, `timerId`, `lastArgs`, `result`,
`mounted`) together with the state of the host timer scheduler
(`liveTimers`, `nextHandle`, `lastDelay`) and the observable invocation
log. -/
structure DState (α ρ : Type) where
  lastCallTime : Option Int
  lastInvokeTime : Int
  timerId : Option Nat
  lastArgs : Option (List α)
  result : Option ρ
  mounted : Bool
  liveTimers : List (Nat × Int)
  nextHandle : Nat
  lastDelay : Option Int
  invocations : List (Int × List α)
  deriving Repr, DecidableEq

/-- The initial state of the hook's refs: `lastCallTime = null`,
`lastInvokeTime = 0`, `timerId = null`, `lastArgs = []` (an empty array,
which is truthy), `result = undefined`, `mounted = true`. -/
def initState (α ρ : Type) : DState α ρ where
  lastCallTime := none
  lastInvokeTime := 0
  timerId := none
  lastArgs := some []
  result := none
  mounted := true
  liveTimers := []
  nextHandle := 1
  lastDelay := none
  invocations := []

variable {α ρ : Type}

/-- `invokeFunc(time)`: consume `lastArgs`, clear them, set
`lastInvokeTime := time`, dispatch to the target function and cache the
result.  Dispatches are logged in `invocations`. -/
def invokeFunc (f : List α → ρ) (time : Int) (s : DState α ρ) :
    DState α ρ × ρ :=
  let args := s.lastArgs.getD []
  let r := f args
  ({ s with
      lastArgs := none
      lastInvokeTime := time
      result := some r
      invocations := (time, args) :: s.invocations }, r)

/-- `startTimer(pendingFunc, wait)` on the `setTimeout` path:
`timerId.current = setTimeout(pendingFunc, wait)`.  The scheduler clamps a
negative delay to 0 and returns a fresh positive handle.  Note that the
previously tracked timeout is *not* cleared. -/
def startTimer (s : DState α ρ) (now delay : Int) : DState α ρ :=
  { s with
      timerId := some s.nextHandle
      liveTimers := (s.nextHandle, now + max delay 0) :: s.liveTimers
      nextHandle := s.nextHandle + 1
      lastDelay := some delay }

/-- `shouldInvoke(time)`: false when unmounted; otherwise true when
`!lastCallTime.current` (null *or zero* — JavaScript falsiness), or the
elapsed time since the last call is `≥ wait` or negative, or `maxWait` is
configured and the elapsed time since the last invocation is `≥ maxWait`. -/
def shouldInvoke (cfg : Cfg) (s : DState α ρ) (time : Int) : Bool :=
  if !s.mounted then false
  else
    let timeSinceLastCall := time - jsNum s.lastCallTime
    let timeSinceLastInvoke := time - s.lastInvokeTime
    !truthyInt s.lastCallTime ||
      decide (timeSinceLastCall ≥ cfg.wait) ||
      decide (timeSinceLastCall < 0) ||
      (cfg.maxing && decide (timeSinceLastInvoke ≥ cfg.maxWait))

/-- `trailingEdge(time)`: clear `timerId`; invoke if `trailing` is set and
`lastArgs` is truthy (a non-null array), else clear the held arguments and
return the cached result. -/
def trailingEdge (cfg : Cfg) (f : List α → ρ) (time : Int) (s : DState α ρ) :
    DState α ρ × Option ρ :=
  let s := { s with timerId := none }
  if cfg.trailing && s.lastArgs.isSome then
    let (s, r) := invokeFunc f time s
    (s, some r)
  else
    ({ s with lastArgs := none }, s.result)

/-- The remaining-wait computation of `timerExpired` (lines 99–102):
`min(wait - timeSinceLastCall, maxWait - timeSinceLastInvoke)` when maxing,
else `wait - timeSinceLastCall`. -/
def remainingWaitFn (cfg : Cfg) (s : DState α ρ) (time : Int) : Int :=
  let timeSinceLastCall := time - jsNum s.lastCallTime
  let timeSinceLastInvoke := time - s.lastInvokeTime
  let timeWaiting := cfg.wait - timeSinceLastCall
  if cfg.maxing then min timeWaiting (cfg.maxWait - timeSinceLastInvoke)
  else timeWaiting

/-- `timerExpired()` running at time `time`: perform the trailing edge if
`shouldInvoke`, otherwise restart the timer with the remaining wait. -/
def timerExpired (cfg : Cfg) (f : List α → ρ) (time : Int) (s : DState α ρ) :
    DState α ρ × Option ρ :=
  if shouldInvoke cfg s time then trailingEdge cfg f time s
  else (startTimer s time (remainingWaitFn cfg s time), none)

/-- `cancel()`: clear the tracked timeout if truthy, reset
`lastInvokeTime := 0` and null out `lastArgs`, `lastCallTime`, `timerId`.
`result` is untouched. -/
def cancelOp (s : DState α ρ) : DState α ρ :=
  let s :=
    if truthyHandle s.timerId then
      { s with liveTimers := s.liveTimers.filter (fun p => !(some p.1 == s.timerId)) }
    else s
  { s with
      lastInvokeTime := 0
      lastArgs := none
      lastCallTime := none
      timerId := none }

/-- `flush()`: `!timerId.current ? result.current : trailingEdge(Date.now())`. -/
def flushOp (cfg : Cfg) (f : List α → ρ) (now : Int) (s : DState α ρ) :
    DState α ρ × Option ρ :=
  if !truthyHandle s.timerId then (s, s.result)
  else trailingEdge cfg f now s

/-- `pending()`: `!!timerId.current`. -/
def pendingOp (s : DState α ρ) : Bool :=
  truthyHandle s.timerId

/-- The debounced function itself (`debounced`, lines 127–154): record the
call, then either open a fresh window (scheduling a trailing check and
possibly invoking the leading edge), invoke immediately on the maxing
tight-loop path, or just make sure a timer is scheduled. -/
def debouncedCall (cfg : Cfg) (f : List α → ρ) (time : Int) (args : List α)
    (s : DState α ρ) : DState α ρ × Option ρ :=
  let isInvoking := shouldInvoke cfg s time
  let s1 := { s with lastArgs := some args, lastCallTime := some time }
  if isInvoking && !truthyHandle s1.timerId && s1.mounted then
    let s2 := { s1 with lastInvokeTime := time }
    let s3 := startTimer s2 time cfg.wait
    if cfg.leading then
      let (s4, r) := invokeFunc f time s3
      (s4, some r)
    else (s3, s3.result)
  else if isInvoking && cfg.maxing then
    let s2 := startTimer s1 time cfg.wait
    let (s3, r) := invokeFunc f time s2
    (s3, some r)
  else
    let s2 := if !truthyHandle s1.timerId then startTimer s1 time cfg.wait else s1
    (s2, s2.result)

/-- Events of the host environment: a call to the debounced function, the
scheduler firing the timeout with handle `h`, a `flush`, a `cancel`, or the
unmount cleanup (which only flips `mounted`; this version of the code does
not cancel the timer on unmount). -/
inductive Ev (α : Type) where
  | call (t : Int) (args : List α)
  | fire (t : Int) (h : Nat)
  | flushE (t : Int)
  | cancelE (t : Int)
  | unmountE (t : Int)
  deriving Repr, DecidableEq

/-- The time at which an event happens. -/
def Ev.time : Ev α → Int
  | .call t _ => t
  | .fire t _ => t
  | .flushE t => t
  | .cancelE t => t
  | .unmountE t => t

/-- One environment step.  A firing timeout is first dequeued from the
scheduler, then runs `timerExpired`. -/
def stepEv (cfg : Cfg) (f : List α → ρ) (s : DState α ρ) : Ev α → DState α ρ
  | .call t args => (debouncedCall cfg f t args s).1
  | .fire t h =>
      let s := { s with liveTimers := s.liveTimers.filter (fun p => p.1 != h) }
      (timerExpired cfg f t s).1
  | .flushE t => (flushOp cfg f t s).1
  | .cancelE _ => cancelOp s
  | .unmountE _ => { s with mounted := false }

/-- Run a list of environment events. -/
def runEvents (cfg : Cfg) (f : List α → ρ) (s : DState α ρ) :
    List (Ev α) → DState α ρ
  | [] => s
  | e :: es => runEvents cfg f (stepEv cfg f s e) es

/-- Lax validity of an event trace starting at time `now`: event times are
non-decreasing and a timeout can only fire once its due time has been
reached (real `setTimeout` may run the callback arbitrarily late). -/
def laxOk (cfg : Cfg) (f : List α → ρ) (now : Int) (s : DState α ρ) :
    List (Ev α) → Bool
  | [] => true
  | e :: es =>
      decide (now ≤ e.time) &&
      (match e with
        | .fire t h => s.liveTimers.any (fun p => p.1 == h && decide (p.2 ≤ t))
        | _ => true) &&
      laxOk cfg f e.time (stepEv cfg f s e) es

/-- Prompt validity: additionally, no event overtakes a due timeout (every
live timeout's due time is ≥ the event's time) and timeouts fire exactly at
their due time.  This is the idealised scheduler under which the timing
claims of the spec are stated. -/
def promptOk (cfg : Cfg) (f : List α → ρ) (now : Int) (s : DState α ρ) :
    List (Ev α) → Bool
  | [] => true
  | e :: es =>
      decide (now ≤ e.time) &&
      s.liveTimers.all (fun p => decide (e.time ≤ p.2)) &&
      (match e with
        | .fire t h => s.liveTimers.any (fun p => p.1 == h && p.2 == t)
        | _ => true) &&
      promptOk cfg f e.time (stepEv cfg f s e) es

/-- The calls contained in an event trace, in order. -/
def callsOf : List (Ev α) → List (Int × List α)
  | [] => []
  | .call t a :: es => (t, a) :: callsOf es
  | _ :: es => callsOf es

/-- The trace contains only `call` and `fire` events. -/
def onlyCallFire : List (Ev α) → Bool
  | [] => true
  | .call _ _ :: es => onlyCallFire es
  | .fire _ _ :: es => onlyCallFire es
  | _ => false

/-- All call times are ≥ 1 and consecutive calls are spaced `< w` apart
(`prev` is the time of the call preceding the trace, if any). -/
def callGapsLt (w : Int) : Option Int → List (Ev α) → Bool
  | _, [] => true
  | prev, .call t _ :: es =>
      decide (1 ≤ t) &&
      (match prev with
        | none => true
        | some p => decide (t - p < w)) &&
      callGapsLt w (some t) es
  | prev, _ :: es => callGapsLt w prev es

/-- Adjacent entries of the invocation log (newest first) are less than
`bound` apart. -/
def logGapsLt (bound : Int) : List (Int × List α) → Bool
  | [] => true
  | [_] => true
  | (t1, _) :: (t2, a2) :: r =>
      decide (t1 - t2 < bound) && logGapsLt bound ((t2, a2) :: r)

/-- The `useRAF` flag of the hook: `!wait && wait !== 0 && typeof window
!== 'undefined'`.  With `wait : Option Int` standing for the supplied
argument (`none` = undefined), this is true exactly when `wait` is absent
and a window exists; an explicit `wait = 0` is falsy but `=== 0`, so it
does *not* select `requestAnimationFrame`. -/
def useRAF (hasWindow : Bool) : Option Int → Bool
  | none => hasWindow
  | some _ => false

/-- The normalisation `wait = +wait || 0` (undefined coerces to `NaN`,
which `|| 0` replaces by 0). -/
def normWait : Option Int → Int
  | none => 0
  | some w => w

/-- The spec's characterisation of `shouldInvoke` (§4 of the spec, claim
C3), written from the spec's words for comparison with the source
definition: enabled AND (lastCallTime absent, or elapsed-since-call ≥ wait,
or elapsed-since-call negative, or maxWait configured and
elapsed-since-invoke ≥ maxWait). -/
def shouldInvokeSpec (cfg : Cfg) (s : DState α ρ) (time : Int) : Prop :=
  s.mounted = true ∧
    (s.lastCallTime = none ∨
      time - jsNum s.lastCallTime ≥ cfg.wait ∨
      time - jsNum s.lastCallTime < 0 ∨
      (cfg.maxing = true ∧ time - s.lastInvokeTime ≥ cfg.maxWait))

/-- The amended characterisation: clause (a) must read "`lastCallTime` is
*falsy*" (absent **or equal to 0**), because the source tests
`!lastCallTime.current`. -/
def shouldInvokeSpecAmended (cfg : Cfg) (s : DState α ρ) (time : Int) : Prop :=
  s.mounted = true ∧
    (truthyInt s.lastCallTime = false ∨
      time - jsNum s.lastCallTime ≥ cfg.wait ∨
      time - jsNum s.lastCallTime < 0 ∨
      (cfg.maxing = true ∧ time - s.lastInvokeTime ≥ cfg.maxWait))

/-- The trace contains no `flush` event. -/
def noFlush : List (Ev α) → Bool
  | [] => true
  | .flushE _ :: _ => false
  | _ :: es => noFlush es

/-- The single-timer invariant of claim C5: either no timeout is tracked
and none is live, or exactly the tracked timeout is live. -/
def singleTimerInv (s : DState α ρ) : Prop :=
  1 ≤ s.nextHandle ∧
    ((s.timerId = none ∧ s.liveTimers = []) ∨
      (∃ h d, s.timerId = some h ∧ 1 ≤ h ∧ s.liveTimers = [(h, d)]))


def defaultCfg (w : Int) : Cfg := ⟨w, false, true, false, 0⟩

def maxCfg (w m : Int) : Cfg := ⟨w, false, true, true, m⟩

/-- Mid-burst invariant for claim C1: no invocation yet, the last call's
arguments and time are held, and a single timeout is live, due no later
than `lastT + wait`. -/
def MidInv (cfg : Cfg) (now lastT : Int) (lastA : List α) (s : DState α ρ) : Prop :=
  s.mounted = true ∧ s.invocations = [] ∧ s.lastArgs = some lastA ∧
    s.lastCallTime = some lastT ∧ 1 ≤ lastT ∧ lastT ≤ now ∧ 1 ≤ s.nextHandle ∧
    ∃ h d, s.timerId = some h ∧ 1 ≤ h ∧ s.liveTimers = [(h, d)] ∧
      now ≤ d ∧ d ≤ lastT + cfg.wait

/-- Reachability invariant for the maxWait analysis (claim C2), for a
controller with `leading=false`, `trailing=true`, `maxWait = M ≥ wait = w`,
run on `call`/`fire` events only.  `now` is the time of the last processed
event. -/
def Inv2 (w M now : Int) (s : DState α ρ) : Prop :=
  s.mounted = true ∧
  1 ≤ s.nextHandle ∧
  s.lastInvokeTime ≤ now ∧
  (∀ τ, s.lastCallTime = some τ → 1 ≤ τ ∧ τ ≤ now) ∧
  (s.lastCallTime = none → s.liveTimers = []) ∧
  (∀ p, p ∈ s.liveTimers →
    p.2 ≤ jsNum s.lastCallTime + w ∨ p.2 ≤ s.lastInvokeTime + M) ∧
  (∀ h, s.timerId = some h → 1 ≤ h ∧ ∃ d, (h, d) ∈ s.liveTimers) ∧
  (∀ T a l, s.invocations = (T, a) :: l →
    s.lastInvokeTime = T ∧ ∃ τ, s.lastCallTime = some τ ∧ τ < T + M) ∧
  (s.lastArgs = none → ∀ T a l, s.invocations = (T, a) :: l →
    jsNum s.lastCallTime ≤ T) ∧
  (truthyHandle s.timerId = false → ∀ T a l, s.invocations = (T, a) :: l →
    jsNum s.lastCallTime ≤ T + M - w) ∧
  logGapsLt (M + w) s.invocations = true

section Helpers

variable {α ρ : Type}

lemma shouldInvoke_mounted {cfg : Cfg} {s : DState α ρ} {t : Int}
    (h : shouldInvoke cfg s t = true) : s.mounted = true := by
  by_contra hm
  rw [Bool.not_eq_true] at hm
  simp [shouldInvoke, hm] at h

lemma shouldInvoke_false_iff {cfg : Cfg} {s : DState α ρ} {t : Int}
    (hm : s.mounted = true) :
    shouldInvoke cfg s t = false ↔
      truthyInt s.lastCallTime = true ∧
        0 ≤ t - jsNum s.lastCallTime ∧
        t - jsNum s.lastCallTime < cfg.wait ∧
        (cfg.maxing = true → t - s.lastInvokeTime < cfg.maxWait) := by
  cases hb : truthyInt s.lastCallTime <;> cases hx : cfg.maxing <;>
    (simp [shouldInvoke, hm, hb, hx]; all_goals omega)

end Helpers

/-- Claim C3 (amended): for every time and controller state, `shouldInvoke`
returns true iff the controller is mounted and (a) `lastCallTime` is falsy
(absent or 0), or (b) elapsed since the last call ≥ wait, or (c) elapsed
since the last call is negative, or (d) maxWait is configured and elapsed
since the last invocation ≥ maxWait.  The amendment (relative to the spec)
is in clause (a): the source tests JavaScript truthiness, so a recorded
`lastCallTime` of 0 also satisfies it. -/
theorem shouldInvoke_characterisation (cfg : Cfg) (s : DState α ρ) (time : Int) :
    shouldInvoke cfg s time = true ↔ shouldInvokeSpecAmended cfg s time := by
  cases hm : s.mounted
  · simp [shouldInvoke, shouldInvokeSpecAmended, hm]
  · cases hb : truthyInt s.lastCallTime <;> cases hx : cfg.maxing <;>
      (simp [shouldInvoke, shouldInvokeSpecAmended, hm, hb, hx]; all_goals omega)

/-- Claim C3 counterexample: with `lastCallTime = some 0` (a call recorded
at clock 0), wait 100 and now 5, the code's `shouldInvoke` returns true but
the spec's characterisation (clause (a) = "lastCallTime absent") is false,
refuting the claimed iff. -/
theorem shouldInvoke_zero_call_time_counterexample :
    shouldInvoke (Cfg.mk 100 false true false 0)
        { initState Nat Nat with lastCallTime := some 0 } 5 = true ∧
      ¬ shouldInvokeSpec (Cfg.mk 100 false true false 0)
        { initState Nat Nat with lastCallTime := some 0 } 5 := by
  constructor
  · decide
  · intro h
    rcases h with ⟨-, h⟩
    simp [initState, jsNum] at h

/-- Claim C6 counterexample: with a window present and an explicit
`wait = 0`, `useRAF` is false — the controller does NOT schedule through
`requestAnimationFrame`, contradicting the claim. -/
theorem zero_wait_raf_counterexample :
    useRAF true (some 0) = false := by rfl

/-- Claim C6 (amended): `useRAF` is selected exactly when `wait` is absent
(undefined/NaN) and a window exists; any numeric `wait` — including an
explicit 0 — uses the plain `setTimeout` scheduler, and an absent `wait`
normalises to 0.  A zero wait therefore degrades to next-tick scheduling via
`setTimeout(_, 0)`, not via the frame-synchronised primitive. -/
theorem raf_only_when_wait_absent :
    (∀ (hasWindow : Bool) (w : Int), useRAF hasWindow (some w) = false) ∧
      (∀ hasWindow : Bool, useRAF hasWindow none = hasWindow) ∧
      normWait none = 0 ∧ (∀ w : Int, normWait (some w) = w) := by
  refine ⟨fun _ _ => rfl, fun _ => rfl, rfl, fun _ => rfl⟩

/-- Claim C7: for every state, if no timer is active (`timerId` falsy),
`flush()` returns `lastResult` with the state unchanged and causes no
invocation; if a timer is active, `flush()` performs the trailing-edge
action at the current time and returns its result. -/
theorem flush_behaviour (cfg : Cfg) (f : List α → ρ) (now : Int) (s : DState α ρ) :
    (truthyHandle s.timerId = false →
      flushOp cfg f now s = (s, s.result) ∧
        (flushOp cfg f now s).1.invocations = s.invocations) ∧
    (truthyHandle s.timerId = true →
      flushOp cfg f now s = trailingEdge cfg f now s) := by
  constructor
  · intro h
    simp [flushOp, h]
  · intro h
    simp [flushOp, h]

theorem flush_behaviour_witness :
    flushOp (Cfg.mk 100 false true false 0) (fun l : List Nat => l.sum) 5
        (initState Nat Nat) = (initState Nat Nat, none) :=
  ((flush_behaviour (Cfg.mk 100 false true false 0) (fun l : List Nat => l.sum) 5
      (initState Nat Nat)).1 rfl).1



lemma cancelOp_timerId (s : DState α ρ) : (cancelOp s).timerId = none := by
  cases ht : truthyHandle s.timerId <;> simp [cancelOp, ht]

lemma cancelOp_result (s : DState α ρ) : (cancelOp s).result = s.result := by
  cases ht : truthyHandle s.timerId <;> simp [cancelOp, ht]

lemma cancelOp_invocations (s : DState α ρ) :
    (cancelOp s).invocations = s.invocations := by
  cases ht : truthyHandle s.timerId <;> simp [cancelOp, ht]

/-- Claim C8: `cancel()` resets `lastInvokeTime` to 0, clears `lastArgs`,
`lastCallTime` and the timer handle, cancels the tracked scheduled timeout,
and leaves `lastResult` unchanged; afterwards `pending()` is false and a
subsequent `flush()` returns the pre-cancel result without invoking. -/
theorem cancel_behaviour (cfg : Cfg) (f : List α → ρ) (now : Int) (s : DState α ρ) :
    (cancelOp s).lastInvokeTime = 0 ∧
      (cancelOp s).lastArgs = none ∧
      (cancelOp s).lastCallTime = none ∧
      (cancelOp s).timerId = none ∧
      (cancelOp s).result = s.result ∧
      (∀ h d, s.timerId = some h → h ≠ 0 → (h, d) ∉ (cancelOp s).liveTimers) ∧
      pendingOp (cancelOp s) = false ∧
      flushOp cfg f now (cancelOp s) = (cancelOp s, s.result) ∧
      (flushOp cfg f now (cancelOp s)).1.invocations = s.invocations := by
  refine ⟨rfl, rfl, rfl, cancelOp_timerId s, cancelOp_result s, ?_, ?_, ?_, ?_⟩
  · intro h d hid hz
    have ht : truthyHandle s.timerId = true := by simp [truthyHandle, hid, hz]
    simp only [cancelOp, ht, if_true]
    simp [List.mem_filter, hid]
  · simp [pendingOp, cancelOp_timerId, truthyHandle]
  · simp [flushOp, cancelOp_timerId, truthyHandle, cancelOp_result]
  · simp [flushOp, cancelOp_timerId, truthyHandle, cancelOp_invocations]

theorem cancel_behaviour_witness :
    (1, 101) ∉ (cancelOp ((debouncedCall (Cfg.mk 100 false true false 0)
        (fun l : List Nat => l.sum) 1 [2] (initState Nat Nat)).1)).liveTimers :=
  (cancel_behaviour (Cfg.mk 100 false true false 0) (fun l : List Nat => l.sum) 7
      ((debouncedCall (Cfg.mk 100 false true false 0)
        (fun l : List Nat => l.sum) 1 [2] (initState Nat Nat)).1)).2.2.2.2.2.1
    1 101 (by decide) (by decide)

/-- Claim C9 (amended): when the timer-expiration handler runs while the
controller is still mounted and `shouldInvoke` is false, it reschedules with
delay `min(wait - elapsedSinceLastCall, maxWait - elapsedSinceLastInvoke)`
when maxWait is set, `wait - elapsedSinceLastCall` otherwise, and that delay
is non-negative.  The mounted hypothesis is the amendment: after unmount the
same code path runs with a possibly negative delay. -/
theorem reschedule_delay_formula (cfg : Cfg) (f : List α → ρ) (s : DState α ρ)
    (time : Int) (hm : s.mounted = true)
    (hsi : shouldInvoke cfg s time = false) :
    (timerExpired cfg f time s).1 = startTimer s time (remainingWaitFn cfg s time) ∧
      0 ≤ remainingWaitFn cfg s time ∧
      (cfg.maxing = true →
        remainingWaitFn cfg s time =
          min (cfg.wait - (time - jsNum s.lastCallTime))
            (cfg.maxWait - (time - s.lastInvokeTime))) ∧
      (cfg.maxing = false →
        remainingWaitFn cfg s time = cfg.wait - (time - jsNum s.lastCallTime)) := by
  rcases (shouldInvoke_false_iff hm).1 hsi with ⟨-, h2, h3, h4⟩
  refine ⟨by simp [timerExpired, hsi], ?_, ?_, ?_⟩
  · cases hx : cfg.maxing
    · simp [remainingWaitFn, hx]
      omega
    · have h5 := h4 hx
      simp [remainingWaitFn, hx]
      omega
  · intro hx; simp [remainingWaitFn, hx]
  · intro hx; simp [remainingWaitFn, hx]

theorem reschedule_delay_formula_witness :
    0 ≤ remainingWaitFn (Cfg.mk 10 false true false 0) ((debouncedCall
      (Cfg.mk 10 false true false 0) (fun l : List Nat => l.sum) 1 [5]
      (initState Nat Nat)).1) 3 :=
  (reschedule_delay_formula (Cfg.mk 10 false true false 0)
    (fun l : List Nat => l.sum) _ 3 (by decide) (by decide)).2.1

/-- Claim C9 counterexample: after `call` at t=1 and unmount at t=2, the
scheduled timeout firing late at t=300 finds `shouldInvoke` false and
reschedules with delay `wait - elapsedSinceLastCall = -199`, which is
negative — refuting the claim's unqualified non-negativity. -/
theorem negative_reschedule_delay_counterexample :
    laxOk (Cfg.mk 100 false true false 0) (fun l : List Nat => l.sum) 0
        (initState Nat Nat) [.call 1 [1], .unmountE 2, .fire 300 1] = true ∧
      shouldInvoke (Cfg.mk 100 false true false 0)
        (runEvents (Cfg.mk 100 false true false 0) (fun l : List Nat => l.sum)
          (initState Nat Nat) [.call 1 [1], .unmountE 2]) 300 = false ∧
      (runEvents (Cfg.mk 100 false true false 0) (fun l : List Nat => l.sum)
          (initState Nat Nat) [.call 1 [1], .unmountE 2, .fire 300 1]).lastDelay =
        some (-199) ∧
      ((-199 : Int) < 0) := by
  refine ⟨by decide, by decide, by decide, by decide⟩

/-- Claim C4 exhibit: a call made after the controller is unmounted
returns the cached result and invokes nothing, but — contradicting the
claim and the spec — it DOES schedule a fresh timeout (the guard on line
150 checks only `timerId`, not `mounted`). -/
theorem unmounted_call_still_schedules :
    laxOk (Cfg.mk 100 false true false 0) (fun l : List Nat => l.sum) 0
        (initState Nat Nat) [.unmountE 1, .call 2 [9]] = true ∧
      (runEvents (Cfg.mk 100 false true false 0) (fun l : List Nat => l.sum)
          (initState Nat Nat) [.unmountE 1, .call 2 [9]]).mounted = false ∧
      (debouncedCall (Cfg.mk 100 false true false 0) (fun l : List Nat => l.sum)
          2 [9] (stepEv (Cfg.mk 100 false true false 0) (fun l : List Nat => l.sum)
            (initState Nat Nat) (.unmountE 1))).2 = none ∧
      (runEvents (Cfg.mk 100 false true false 0) (fun l : List Nat => l.sum)
          (initState Nat Nat) [.unmountE 1, .call 2 [9]]).invocations = [] ∧
      (runEvents (Cfg.mk 100 false true false 0) (fun l : List Nat => l.sum)
          (initState Nat Nat) [.unmountE 1, .call 2 [9]]).liveTimers = [(1, 102)] := by
  refine ⟨by decide, by decide, by decide, by decide, by decide⟩

/-- Claim C5 counterexample: `flush` runs the trailing edge without
clearing the scheduled timeout, so after `call` at t=1, `flush` at t=2 and
`call` at t=3 two timeouts are live at once — refuting the at-most-one-
scheduled-timer invariant. -/
theorem duplicate_live_timers_counterexample :
    laxOk (Cfg.mk 100 false true false 0) (fun l : List Nat => l.sum) 0
        (initState Nat Nat) [.call 1 [7], .flushE 2, .call 3 [8]] = true ∧
      (runEvents (Cfg.mk 100 false true false 0) (fun l : List Nat => l.sum)
          (initState Nat Nat) [.call 1 [7], .flushE 2, .call 3 [8]]).liveTimers =
        [(2, 103), (1, 101)] := by
  refine ⟨by decide, by decide⟩

/-- Claim C2 counterexample: with wait=100 and maxWait=100, the
prompt-valid run `call 1, call 100, fire 101, call 151, call 250` (all call
gaps < wait) produces invocations at t=101 and t=250 — 149ms apart, which
exceeds maxWait = 100. -/
theorem maxWait_interval_counterexample :
    promptOk (Cfg.mk 100 false true true 100) (fun l : List Nat => l.sum) 0
        (initState Nat Nat)
        [.call 1 [1], .call 100 [2], .fire 101 1, .call 151 [3], .call 250 [4]] = true ∧
      callGapsLt 100 none
        ([.call 1 [1], .call 100 [2], .fire 101 1, .call 151 [3],
          .call 250 [4]] : List (Ev Nat)) = true ∧
      (runEvents (Cfg.mk 100 false true true 100) (fun l : List Nat => l.sum)
          (initState Nat Nat)
          [.call 1 [1], .call 100 [2], .fire 101 1, .call 151 [3],
            .call 250 [4]]).invocations = [(250, [4]), (101, [2])] ∧
      logGapsLt 100 [((250 : Int), [(4 : Nat)]), (101, [2])] = false := by
  refine ⟨by decide, by decide, by decide, by decide⟩

/-- Claim C10: every invocation of the target clears the held arguments,
so for a single isolated call with `leading = trailing = true` the leading
invocation consumes the arguments and the trailing timer expiration finds
none and does not invoke again: exactly one invocation, at the call time,
with the call's arguments, and the run ends quiescent. -/
theorem leading_edge_consumes_arguments (w t : Int) (hw : 1 ≤ w) (ht : 1 ≤ t)
    (args : List Nat) (f : List Nat → Nat) :
    (∀ (s : DState Nat Nat) (t' : Int), (invokeFunc f t' s).1.lastArgs = none) ∧
      promptOk (Cfg.mk w true true false 0) f 0 (initState Nat Nat)
        [.call t args, .fire (t + w) 1] = true ∧
      (runEvents (Cfg.mk w true true false 0) f (initState Nat Nat)
        [.call t args, .fire (t + w) 1]).invocations = [(t, args)] ∧
      (runEvents (Cfg.mk w true true false 0) f (initState Nat Nat)
        [.call t args, .fire (t + w) 1]).liveTimers = [] := by
  have hmax : max w 0 = w := by omega
  have htz : (t != 0) = true := by simp; omega
  -- the state after the call
  have hstep1 : stepEv (Cfg.mk w true true false 0) f (initState Nat Nat)
      (.call t args) =
      { lastCallTime := some t, lastInvokeTime := t, timerId := some 1,
        lastArgs := none, result := some (f args), mounted := true,
        liveTimers := [(1, t + w)], nextHandle := 2, lastDelay := some w,
        invocations := [(t, args)] } := by
    simp [stepEv, debouncedCall, shouldInvoke, truthyInt, jsNum, initState,
      truthyHandle, startTimer, invokeFunc, hmax]
  have hfe : t + w - t ≥ w := by omega
  have hstep2 : stepEv (Cfg.mk w true true false 0) f
      ({ lastCallTime := some t, lastInvokeTime := t, timerId := some 1,
         lastArgs := none, result := some (f args), mounted := true,
         liveTimers := [(1, t + w)], nextHandle := 2, lastDelay := some w,
         invocations := [(t, args)] } : DState Nat Nat)
      (.fire (t + w) 1) =
      { lastCallTime := some t, lastInvokeTime := t, timerId := none,
        lastArgs := none, result := some (f args), mounted := true,
        liveTimers := [], nextHandle := 2, lastDelay := some w,
        invocations := [(t, args)] } := by
    simp [stepEv, timerExpired, shouldInvoke, truthyInt, jsNum, htz,
      trailingEdge, hfe]
  refine ⟨fun s t' => rfl, ?_, ?_, ?_⟩
  · simp [promptOk, Ev.time, hstep1, hstep2,
      show (initState Nat Nat).liveTimers = [] from rfl]
    omega
  · simp [runEvents, hstep1, hstep2]
  · simp [runEvents, hstep1, hstep2]

lemma singleTimerInv_startTimer {s : DState α ρ} (h : singleTimerInv s)
    (hnone : truthyHandle s.timerId = false) (now delay : Int) :
    singleTimerInv (startTimer s now delay) := by
  rcases h with ⟨hn, h | ⟨h0, d, hid, h1, hl⟩⟩
  · refine ⟨?_, Or.inr ⟨s.nextHandle, now + max delay 0, rfl, hn, ?_⟩⟩
    · simp only [startTimer]
      omega
    · simp only [startTimer, h.2]
  · rw [hid] at hnone
    simp [truthyHandle] at hnone
    omega

lemma singleTimerInv_of_eq {s s' : DState α ρ} (h : singleTimerInv s)
    (e1 : s'.nextHandle = s.nextHandle) (e2 : s'.timerId = s.timerId)
    (e3 : s'.liveTimers = s.liveTimers) : singleTimerInv s' := by
  rcases h with ⟨hn, h | ⟨h0, d, hid, h1, hl⟩⟩
  · exact ⟨by omega, Or.inl ⟨by rw [e2, h.1], by rw [e3, h.2]⟩⟩
  · exact ⟨by omega, Or.inr ⟨h0, d, by rw [e2, hid], h1, by rw [e3, hl]⟩⟩

lemma debouncedCall_singleTimer {cfg : Cfg} {f : List α → ρ} {t : Int}
    {args : List α} {s : DState α ρ} (hmax : cfg.maxing = false)
    (h : singleTimerInv s) :
    singleTimerInv (debouncedCall cfg f t args s).1 := by
  have h2 : singleTimerInv
      ({ s with lastArgs := some args, lastCallTime := some t } : DState α ρ) :=
    singleTimerInv_of_eq h rfl rfl rfl
  unfold debouncedCall
  simp only [hmax, Bool.and_false, Bool.false_eq_true, if_false]
  split
  case isTrue h1 =>
    simp only [Bool.and_eq_true, Bool.not_eq_true'] at h1
    have hst : singleTimerInv (startTimer
        ({ s with lastArgs := some args, lastCallTime := some t,
                  lastInvokeTime := t } : DState α ρ) t cfg.wait) := by
      refine singleTimerInv_startTimer ?_ h1.1.2 t cfg.wait
      exact singleTimerInv_of_eq h2 rfl rfl rfl
    split
    · exact singleTimerInv_of_eq hst rfl rfl rfl
    · exact hst
  case isFalse h1 =>
    cases ht : !truthyHandle s.timerId
    · simp only [ht, Bool.false_eq_true, if_false]
      exact h2
    · simp only [ht, if_true]
      rw [Bool.not_eq_true'] at ht
      exact singleTimerInv_startTimer h2 ht t cfg.wait

lemma timerExpired_singleTimer {cfg : Cfg} {f : List α → ρ} {t : Int}
    {s : DState α ρ} (hn : 1 ≤ s.nextHandle) (hl : s.liveTimers = []) :
    singleTimerInv (timerExpired cfg f t s).1 := by
  unfold timerExpired
  split
  · unfold trailingEdge invokeFunc
    dsimp only
    split
    · exact ⟨hn, Or.inl ⟨rfl, hl⟩⟩
    · exact ⟨hn, Or.inl ⟨rfl, hl⟩⟩
  · refine ⟨by simp only [startTimer]; omega,
      Or.inr ⟨s.nextHandle, t + max (remainingWaitFn cfg s t) 0, rfl, hn, ?_⟩⟩
    simp only [startTimer, hl]

lemma cancelOp_singleTimer {s : DState α ρ} (h : singleTimerInv s) :
    singleTimerInv (cancelOp s) := by
  rcases h with ⟨hn, hc | ⟨h0, d, hid, h1, hl⟩⟩
  · have ht : truthyHandle s.timerId = false := by rw [hc.1]; rfl
    refine ⟨?_, Or.inl ⟨cancelOp_timerId s, ?_⟩⟩
    · simp [cancelOp, ht]; omega
    · simp [cancelOp, ht, hc.2]
  · have ht : truthyHandle s.timerId = true := by
      rw [hid]; simp [truthyHandle]; omega
    have hz : truthyHandle (some h0) = true := by simp [truthyHandle]; omega
    refine ⟨?_, Or.inl ⟨cancelOp_timerId s, ?_⟩⟩
    · simp [cancelOp, ht]; omega
    · simp [cancelOp, ht, hl, hid, hz]

lemma singleTimer_run {cfg : Cfg} (hmax : cfg.maxing = false) (f : List α → ρ) :
    ∀ (es : List (Ev α)) (now : Int) (s : DState α ρ),
      singleTimerInv s → noFlush es = true → laxOk cfg f now s es = true →
      singleTimerInv (runEvents cfg f s es) := by
  intro es
  induction es with
  | nil => intro now s h _ _; exact h
  | cons e rest ih =>
    intro now s h hnf hv
    cases e with
    | call t args =>
      simp only [laxOk, Bool.and_eq_true] at hv
      exact ih t _ (debouncedCall_singleTimer hmax h) hnf hv.2
    | fire t hh =>
      simp only [laxOk, Bool.and_eq_true] at hv
      rcases hv with ⟨⟨-, hany⟩, hrest⟩
      rcases h with ⟨hn, hc | ⟨h0, d, hid, h1, hl⟩⟩
      · rw [hc.2] at hany
        simp [List.any_nil] at hany
      · rw [hl] at hany
        simp only [List.any_cons, List.any_nil, Bool.or_false, Bool.and_eq_true,
          beq_iff_eq] at hany
        have hfeq : h0 = hh := hany.1
        refine ih t _ ?_ hnf hrest
        show singleTimerInv (timerExpired cfg f t
          ({ s with liveTimers := s.liveTimers.filter (fun p => p.1 != hh) } : DState α ρ)).1
        refine timerExpired_singleTimer hn ?_
        show s.liveTimers.filter (fun p => p.1 != hh) = []
        rw [hl, hfeq]
        simp
    | flushE t => simp [noFlush] at hnf
    | cancelE t =>
      simp only [laxOk, Bool.and_eq_true] at hv
      exact ih t _ (cancelOp_singleTimer h) hnf hv.2
    | unmountE t =>
      simp only [laxOk, Bool.and_eq_true] at hv
      refine ih t _ ?_ hnf hv.2
      rcases h with ⟨hn, hc | ⟨h0, d, hid, h1, hl⟩⟩
      · exact ⟨hn, Or.inl hc⟩
      · exact ⟨hn, Or.inr ⟨h0, d, hid, h1, hl⟩⟩

/-- Claim C5 (amended): with `maxWait` unset and no `flush` calls, every
reachable state of the controller tracks at most one live timeout (the
tracked handle is the only live one).  In general the claim fails: the
`setTimeout` path of `startTimer` never cancels the previously scheduled
timeout, and both the maxWait tight-loop path and a call after `flush`
leave two timeouts live (see the counterexample). -/
theorem single_timer_when_not_maxing (cfg : Cfg) (f : List α → ρ)
    (es : List (Ev α)) (hmax : cfg.maxing = false) (hnf : noFlush es = true)
    (hv : laxOk cfg f 0 (initState α ρ) es = true) :
    singleTimerInv (runEvents cfg f (initState α ρ) es) ∧
      (runEvents cfg f (initState α ρ) es).liveTimers.length ≤ 1 := by
  have h0 : singleTimerInv (initState α ρ) := ⟨le_refl 1, Or.inl ⟨rfl, rfl⟩⟩
  have h := singleTimer_run hmax f es 0 _ h0 hnf hv
  refine ⟨h, ?_⟩
  rcases h with ⟨-, hc | ⟨h0', d, -, -, hl⟩⟩
  · rw [hc.2]; simp
  · rw [hl]; simp

theorem single_timer_when_not_maxing_witness :
    (runEvents (Cfg.mk 100 false true false 0) (fun l : List Nat => l.sum)
      (initState Nat Nat) [.call 1 [7], .fire 101 1]).liveTimers.length ≤ 1 :=
  (single_timer_when_not_maxing (Cfg.mk 100 false true false 0)
    (fun l : List Nat => l.sum) [.call 1 [7], .fire 101 1] rfl (by decide)
    (by decide)).2

lemma debouncedCall_no_invoke_tracked {cfg : Cfg} {f : List α → ρ} {t : Int}
    {args : List α} {s : DState α ρ}
    (hsi : shouldInvoke cfg s t = false)
    (hth : truthyHandle s.timerId = true) :
    (debouncedCall cfg f t args s).1 =
      { s with lastArgs := some args, lastCallTime := some t } := by
  unfold debouncedCall
  simp only [hsi, hth, Bool.false_and, Bool.false_eq_true, if_false,
    Bool.not_true, Bool.and_false]

lemma debouncedCall_no_invoke_untracked {cfg : Cfg} {f : List α → ρ} {t : Int}
    {args : List α} {s : DState α ρ}
    (hsi : shouldInvoke cfg s t = false)
    (hth : truthyHandle s.timerId = false) :
    (debouncedCall cfg f t args s).1 =
      startTimer { s with lastArgs := some args, lastCallTime := some t }
        t cfg.wait := by
  unfold debouncedCall
  simp only [hsi, hth, Bool.false_and, Bool.false_eq_true, if_false,
    Bool.not_false, Bool.and_false, if_true]

lemma debouncedCall_fresh_window {cfg : Cfg} {f : List α → ρ} {t : Int}
    {args : List α} {s : DState α ρ}
    (hsi : shouldInvoke cfg s t = true)
    (hth : truthyHandle s.timerId = false) (hm : s.mounted = true)
    (hl : cfg.leading = false) :
    (debouncedCall cfg f t args s).1 =
      startTimer
        { s with
            lastArgs := some args, lastCallTime := some t,
            lastInvokeTime := t }
        t cfg.wait := by
  unfold debouncedCall
  simp only [hsi, hth, hm, hl, Bool.not_false, Bool.true_and, Bool.and_true,
    Bool.and_self, if_true, Bool.false_eq_true, if_false]

lemma debouncedCall_maxing_invoke {cfg : Cfg} {f : List α → ρ} {t : Int}
    {args : List α} {s : DState α ρ}
    (hsi : shouldInvoke cfg s t = true)
    (hth : truthyHandle s.timerId = true) (hmax : cfg.maxing = true) :
    (debouncedCall cfg f t args s).1 =
      (invokeFunc f t (startTimer
        { s with lastArgs := some args, lastCallTime := some t }
        t cfg.wait)).1 := by
  unfold debouncedCall
  simp only [hsi, hth, hmax, Bool.not_true, Bool.and_false, Bool.false_and,
    Bool.false_eq_true, if_false, Bool.true_and, Bool.and_self, if_true]

lemma timerExpired_reschedule {cfg : Cfg} {f : List α → ρ} {t : Int}
    {s : DState α ρ} (hsi : shouldInvoke cfg s t = false) :
    (timerExpired cfg f t s).1 = startTimer s t (remainingWaitFn cfg s t) := by
  simp [timerExpired, hsi]

lemma timerExpired_invoke {cfg : Cfg} {f : List α → ρ} {t : Int}
    {s : DState α ρ} (hsi : shouldInvoke cfg s t = true)
    (htr : cfg.trailing = true) (ha : s.lastArgs.isSome = true) :
    (timerExpired cfg f t s).1 =
      (invokeFunc f t { s with timerId := none }).1 := by
  unfold timerExpired trailingEdge
  simp only [hsi, if_true, htr, Bool.true_and, ha]

lemma timerExpired_clear {cfg : Cfg} {f : List α → ρ} {t : Int}
    {s : DState α ρ} (hsi : shouldInvoke cfg s t = true)
    (ha : s.lastArgs = none) :
    (timerExpired cfg f t s).1 = { s with timerId := none, lastArgs := none } := by
  unfold timerExpired trailingEdge
  simp only [hsi, if_true, ha, Option.isSome_none, Bool.and_false,
    Bool.false_eq_true, if_false]

lemma shouldInvoke_false_of_mid {w : Int} {s : DState α ρ} {t lastT : Int}
    (hm : s.mounted = true) (hlc : s.lastCallTime = some lastT)
    (h1 : 1 ≤ lastT) (h2 : lastT ≤ t) (h3 : t - lastT < w) :
    shouldInvoke (defaultCfg w) s t = false := by
  refine (shouldInvoke_false_iff hm).2 ⟨?_, ?_, ?_, ?_⟩
  · rw [hlc]; simp [truthyInt]; omega
  · rw [hlc]; simp [jsNum]; omega
  · rw [hlc]; simp [jsNum, defaultCfg]; omega
  · intro hx; simp [defaultCfg] at hx

lemma shouldInvoke_true_of_wait {cfg : Cfg} {s : DState α ρ} {t lastT : Int}
    (hm : s.mounted = true) (hlc : s.lastCallTime = some lastT)
    (h : t - lastT ≥ cfg.wait) : shouldInvoke cfg s t = true := by
  simp only [shouldInvoke, hm, Bool.not_true, Bool.false_eq_true, if_false,
    Bool.or_eq_true, decide_eq_true_eq, hlc]
  have hb : cfg.wait ≤ t - jsNum (some lastT) := by simp [jsNum]; omega
  tauto

lemma c1_main {w : Int} (f : List α → ρ) :
    ∀ (es : List (Ev α)) (now lastT : Int) (lastA : List α) (s : DState α ρ),
      MidInv (defaultCfg w) now lastT lastA s →
      onlyCallFire es = true →
      callGapsLt w (some lastT) es = true →
      promptOk (defaultCfg w) f now s es = true →
      (runEvents (defaultCfg w) f s es).liveTimers = [] →
      (runEvents (defaultCfg w) f s es).invocations =
        [(((callsOf es).getLastD (lastT, lastA)).1 + w,
          ((callsOf es).getLastD (lastT, lastA)).2)] := by
  intro es
  induction es with
  | nil =>
    intro now lastT lastA s hInv _ _ _ hq
    rcases hInv with ⟨-, -, -, -, -, -, -, h, d, -, -, hlive, -, -⟩
    rw [runEvents] at hq
    rw [hlive] at hq
    simp at hq
  | cons e rest ih =>
    intro now lastT lastA s hInv ho hg hv hq
    rcases hInv with ⟨hm, hinv0, hargs, hlc, hlT1, hlTnow, hnh, h, d, hid,
      hh1, hlive, hnowd, hdb⟩
    cases e with
    | call t a =>
      simp only [onlyCallFire] at ho
      simp only [callGapsLt, Bool.and_eq_true, decide_eq_true_eq] at hg
      obtain ⟨⟨h1t, hgap⟩, hgrest⟩ := hg
      simp only [promptOk, Ev.time, Bool.and_eq_true, decide_eq_true_eq,
        List.all_eq_true] at hv
      obtain ⟨⟨⟨hnowt, hall⟩, -⟩, hvrest⟩ := hv
      have htd : t ≤ d := by
        have := hall (h, d) (by rw [hlive]; exact List.mem_singleton.2 rfl)
        simpa using this
      have hth : truthyHandle s.timerId = true := by
        rw [hid]; simp [truthyHandle]; omega
      have hsi : shouldInvoke (defaultCfg w) s t = false :=
        shouldInvoke_false_of_mid hm hlc hlT1 (by omega) (by omega)
      have hstep : stepEv (defaultCfg w) f s (.call t a) =
          { s with lastArgs := some a, lastCallTime := some t } := by
        simp only [stepEv]
        exact debouncedCall_no_invoke_tracked hsi hth
      rw [runEvents, hstep] at hq ⊢
      have hmid : MidInv (defaultCfg w) t t a
          ({ s with lastArgs := some a, lastCallTime := some t } : DState α ρ) := by
        refine ⟨hm, hinv0, rfl, rfl, h1t, le_refl t, hnh, h, d, hid, hh1,
          hlive, htd, by omega⟩
      have := ih t t a _ hmid ho hgrest (by rw [hstep] at hvrest; exact hvrest) hq
      rw [this]
      simp only [callsOf, List.getLastD_cons]
    | fire t hh =>
      simp only [onlyCallFire] at ho
      simp only [callGapsLt] at hg
      simp only [promptOk, Ev.time, Bool.and_eq_true, decide_eq_true_eq,
        List.all_eq_true, List.any_eq_true] at hv
      obtain ⟨⟨⟨hnowt, hall⟩, p, hpmem, hpeq⟩, hvrest⟩ := hv
      rw [hlive] at hpmem
      simp only [List.mem_singleton] at hpmem
      subst hpmem
      simp only [Bool.and_eq_true, beq_iff_eq] at hpeq
      obtain ⟨hhh, hdt⟩ := hpeq
      have hdbw : d ≤ lastT + w := by simpa [defaultCfg] using hdb
      -- the fired timeout is the tracked one, firing exactly at d = t
      have hfilter : s.liveTimers.filter (fun p => p.1 != hh) = [] := by
        rw [hlive, hhh]
        simp
      have hstep0 : stepEv (defaultCfg w) f s (.fire t hh) =
          (timerExpired (defaultCfg w) f t
            ({ s with liveTimers := [] } : DState α ρ)).1 := by
        simp only [stepEv, hfilter]
      rcases lt_or_ge (t - lastT) w with hcase | hcase
      · -- reschedule: the timeout fired before lastT + wait
        have hsi : shouldInvoke (defaultCfg w)
            ({ s with liveTimers := [] } : DState α ρ) t = false :=
          shouldInvoke_false_of_mid hm hlc hlT1 (by omega) (by omega)
        have hrw : remainingWaitFn (defaultCfg w)
            ({ s with liveTimers := [] } : DState α ρ) t = w - (t - lastT) := by
          simp [remainingWaitFn, defaultCfg, hlc, jsNum]
        have hstep : stepEv (defaultCfg w) f s (.fire t hh) =
            startTimer ({ s with liveTimers := [] } : DState α ρ) t
              (w - (t - lastT)) := by
          rw [hstep0, timerExpired_reschedule hsi, hrw]
        rw [runEvents, hstep] at hq ⊢
        have hdue : t + max (w - (t - lastT)) 0 = lastT + w := by omega
        have hmid : MidInv (defaultCfg w) t lastT lastA
            (startTimer ({ s with liveTimers := [] } : DState α ρ) t
              (w - (t - lastT))) := by
          refine ⟨hm, hinv0, hargs, hlc, hlT1, by omega, ?_, s.nextHandle,
            t + max (w - (t - lastT)) 0, rfl, by omega, rfl, ?_, ?_⟩
          · simp only [startTimer]; omega
          · omega
          · simp only [defaultCfg]; omega
        have := ih t lastT lastA _ hmid ho hg
          (by rw [hstep] at hvrest; exact hvrest) hq
        rw [this]
        simp only [callsOf]
      · -- trailing edge: t = lastT + w, invoke with the held arguments
        have hteq : t = lastT + w := by omega
        have hsi : shouldInvoke (defaultCfg w)
            ({ s with liveTimers := [] } : DState α ρ) t = true :=
          shouldInvoke_true_of_wait hm hlc (by simpa [defaultCfg] using hcase)
        have hstep : stepEv (defaultCfg w) f s (.fire t hh) =
            (invokeFunc f t
              ({ s with liveTimers := [], timerId := none } : DState α ρ)).1 := by
          rw [hstep0, timerExpired_invoke hsi rfl (by rw [hargs]; rfl)]
        have hstate : (invokeFunc f t
            ({ s with liveTimers := [], timerId := none } : DState α ρ)).1 =
            { s with liveTimers := [], timerId := none, lastArgs := none,
                     lastInvokeTime := t, result := some (f lastA),
                     invocations := [(t, lastA)] } := by
          simp [invokeFunc, hargs, hinv0]
        cases rest with
        | nil =>
          rw [runEvents, hstep, hstate, runEvents]
          simp only [callsOf, List.getLastD_nil]
          rw [hteq]
        | cons e2 rest2 =>
          exfalso
          rw [hstep, hstate] at hvrest
          cases e2 with
          | call t2 a2 =>
            simp only [callGapsLt, Bool.and_eq_true, decide_eq_true_eq] at hg
            simp only [promptOk, Ev.time, Bool.and_eq_true,
              decide_eq_true_eq] at hvrest
            omega
          | fire t2 h2 =>
            simp only [promptOk, Ev.time, Bool.and_eq_true,
              decide_eq_true_eq, List.any_eq_true] at hvrest
            obtain ⟨⟨-, p, hp, -⟩, -⟩ := hvrest
            simp at hp
          | flushE t2 => simp [onlyCallFire] at ho
          | cancelE t2 => simp [onlyCallFire] at ho
          | unmountE t2 => simp [onlyCallFire] at ho
    | flushE t => simp [onlyCallFire] at ho
    | cancelE t => simp [onlyCallFire] at ho
    | unmountE t => simp [onlyCallFire] at ho

/-- Claim C1: with default options (leading=false, trailing=true, no
maxWait) and a prompt scheduler, any complete run whose calls form a burst
(timestamps ≥ 1, consecutive gaps < wait) produces exactly one invocation,
`wait` ms after the last call of the burst, with the last call's
arguments. -/
theorem trailing_burst_single_invocation (w : Int) (hw : 1 ≤ w)
    (f : List α → ρ) (es : List (Ev α)) (hne : callsOf es ≠ [])
    (honly : onlyCallFire es = true)
    (hgaps : callGapsLt w none es = true)
    (hprompt : promptOk (defaultCfg w) f 0 (initState α ρ) es = true)
    (hquiet : (runEvents (defaultCfg w) f (initState α ρ) es).liveTimers = []) :
    (runEvents (defaultCfg w) f (initState α ρ) es).invocations =
      [(((callsOf es).getLastD (0, [])).1 + w,
        ((callsOf es).getLastD (0, [])).2)] := by
  cases es with
  | nil => simp [callsOf] at hne
  | cons e rest =>
    cases e with
    | call t a =>
      simp only [onlyCallFire] at honly
      simp only [callGapsLt, Bool.and_eq_true, decide_eq_true_eq] at hgaps
      obtain ⟨⟨h1t, -⟩, hgrest⟩ := hgaps
      simp only [promptOk, Ev.time, Bool.and_eq_true, decide_eq_true_eq,
        List.all_eq_true] at hprompt
      obtain ⟨-, hvrest⟩ := hprompt
      have hsi : shouldInvoke (defaultCfg w) (initState α ρ) t = true := by
        simp [shouldInvoke, initState, truthyInt]
      have hstep : stepEv (defaultCfg w) f (initState α ρ) (.call t a) =
          startTimer
            { initState α ρ with
                lastArgs := some a, lastCallTime := some t,
                lastInvokeTime := t }
            t w := by
        simp only [stepEv]
        exact debouncedCall_fresh_window hsi rfl rfl rfl
      have hmax : max w 0 = w := by omega
      have hmid : MidInv (defaultCfg w) t t a
          (startTimer
            { initState α ρ with
                lastArgs := some a, lastCallTime := some t,
                lastInvokeTime := t }
            t w) := by
        refine ⟨rfl, rfl, rfl, rfl, h1t, le_refl t, ?_, 1, t + max w 0, rfl,
          le_refl 1, rfl, by omega, by simp [defaultCfg]; omega⟩
        simp [startTimer, initState]
      rw [runEvents, hstep] at hquiet ⊢
      have := c1_main f rest t t a _ hmid honly hgrest
        (by rw [hstep] at hvrest; exact hvrest) hquiet
      rw [this]
      simp only [callsOf, List.getLastD_cons]
    | fire t hh =>
      simp only [promptOk, Ev.time, Bool.and_eq_true, List.any_eq_true] at hprompt
      obtain ⟨⟨-, p, hp, -⟩, -⟩ := hprompt
      simp [initState] at hp
    | flushE t => simp [onlyCallFire] at honly
    | cancelE t => simp [onlyCallFire] at honly
    | unmountE t => simp [onlyCallFire] at honly

theorem trailing_burst_single_invocation_witness :
    (runEvents (defaultCfg 10) (fun l : List Nat => l.sum) (initState Nat Nat)
      [.call 1 [5], .call 3 [7], .fire 11 1, .fire 13 2]).invocations =
      [(13, [7])] :=
  trailing_burst_single_invocation 10 (by decide) (fun l : List Nat => l.sum)
    [.call 1 [5], .call 3 [7], .fire 11 1, .fire 13 2] (by decide) (by decide)
    (by decide) (by decide) (by decide)

theorem leading_edge_consumes_arguments_witness :
    (runEvents (Cfg.mk 10 true true false 0) (fun l : List Nat => l.sum)
      (initState Nat Nat) [.call 5 [3], .fire (5 + 10) 1]).invocations =
      [(5, [3])] :=
  (leading_edge_consumes_arguments 10 5 (by decide) (by decide) [3]
    (fun l : List Nat => l.sum)).2.2.1

lemma inv2_call {w M now t : Int} {a : List α} {f : List α → ρ}
    {s : DState α ρ} (hw : 1 ≤ w) (hM : w ≤ M)
    (hInv : Inv2 w M now s) (h0 : 0 ≤ now) (hnt : now ≤ t)
    (hall : ∀ p ∈ s.liveTimers, t ≤ p.2) (h1t : 1 ≤ t)
    (hgap : ∀ τ, s.lastCallTime = some τ → t - τ < w) :
    Inv2 w M t (stepEv (maxCfg w M) f s (.call t a)) := by
  obtain ⟨hm, hnh, hli, hg, ho, hb, hi, hc, hd, he, hj⟩ := hInv
  have hjlc : jsNum s.lastCallTime ≤ now := by
    cases hlc : s.lastCallTime with
    | none => simpa [jsNum, hlc] using h0
    | some τ => simpa [jsNum, hlc] using (hg τ hlc).2
  cases hsi : shouldInvoke (maxCfg w M) s t with
  | false =>
    obtain ⟨htr, hc0, hc1, hc2⟩ := (shouldInvoke_false_iff hm).1 hsi
    have hc1w : t - jsNum s.lastCallTime < w := by simpa [maxCfg] using hc1
    have hlcs : ∃ τ, s.lastCallTime = some τ ∧ τ ≠ 0 := by
      cases hlc : s.lastCallTime with
      | none => rw [hlc] at htr; simp [truthyInt] at htr
      | some τ =>
        rw [hlc] at htr; simp [truthyInt] at htr
        exact ⟨τ, rfl, htr⟩
    obtain ⟨τ, hlc, -⟩ := hlcs
    have htlim : t - s.lastInvokeTime < M := by simpa [maxCfg] using hc2 rfl
    cases hth : truthyHandle s.timerId with
    | true =>
      have hstep : stepEv (maxCfg w M) f s (.call t a) =
          { s with lastArgs := some a, lastCallTime := some t } := by
        simp only [stepEv]; exact debouncedCall_no_invoke_tracked hsi hth
      rw [hstep]
      refine ⟨hm, hnh, by dsimp only; omega, ?_, by simp, ?_, ?_, ?_, by simp, ?_, hj⟩
      · intro τ' hτ'
        simp at hτ'
        omega
      · intro p hp
        rcases hb p hp with h | h
        · left; simp [startTimer, jsNum]; omega
        · right; simpa using h
      · intro h hh
        rcases hi h hh with ⟨hh1, d, hdmem⟩
        exact ⟨hh1, d, hdmem⟩
      · intro T a' l hl
        simp only at hl
        obtain ⟨hliT, τ', hτ', hτ'b⟩ := hc T a' l hl
        refine ⟨hliT, t, rfl, by omega⟩
      · intro hthf
        simp only at hthf
        rw [hthf] at hth
        cases hth
    | false =>
      have hstep : stepEv (maxCfg w M) f s (.call t a) =
          startTimer { s with lastArgs := some a, lastCallTime := some t }
            t w := by
        simp only [stepEv]
        have := @debouncedCall_no_invoke_untracked α ρ (maxCfg w M) f t a s
          hsi hth
        simpa [maxCfg] using this
      rw [hstep]
      have hmaxw : max w 0 = w := by omega
      refine ⟨hm, ?_, by simp only [startTimer]; omega, ?_,
        by simp [startTimer], ?_, ?_, ?_, by simp [startTimer], ?_, hj⟩
      · simp only [startTimer]; omega
      · intro τ' hτ'
        simp [startTimer] at hτ'
        omega
      · intro p hp
        simp only [startTimer, List.mem_cons] at hp
        rcases hp with hp | hp
        · left
          rw [hp]
          simp [startTimer, jsNum, hmaxw]
        · rcases hb p hp with h | h
          · left; simp [startTimer, jsNum]; omega
          · right; simpa using h
      · intro h hh
        simp only [startTimer] at hh ⊢
        injection hh with hh
        refine ⟨by omega, t + max w 0, ?_⟩
        rw [← hh]
        exact List.mem_cons_self _ _
      · intro T a' l hl
        simp only [startTimer] at hl
        obtain ⟨hliT, τ', hτ', hτ'b⟩ := hc T a' l hl
        exact ⟨hliT, t, rfl, by omega⟩
      · intro hthf
        simp only [startTimer, truthyHandle] at hthf
        simp at hthf
        omega
  | true =>
    cases hth : truthyHandle s.timerId with
    | false =>
      -- branch 1: fresh window, no invocation (leading is false);
      -- only reachable before the first invocation
      have hinv0 : s.invocations = [] := by
        cases hinvs : s.invocations with
        | nil => rfl
        | cons p l =>
          exfalso
          obtain ⟨hliT, τ, hlc, hτb⟩ := hc p.1 p.2 l (by rw [hinvs])
          have h1 := (hg τ hlc).1
          have h2 := (hg τ hlc).2
          have h3 := he hth p.1 p.2 l (by rw [hinvs])
          rw [hlc] at h3
          simp only [jsNum] at h3
          have h4 := hgap τ hlc
          have : shouldInvoke (maxCfg w M) s t = false := by
            refine (shouldInvoke_false_iff hm).2 ⟨?_, ?_, ?_, ?_⟩
            · rw [hlc]; simp [truthyInt]; omega
            · rw [hlc]; simp [jsNum]; omega
            · rw [hlc]; simp [jsNum, maxCfg]; omega
            · intro _
              simp only [maxCfg]
              omega
          rw [this] at hsi
          cases hsi
      have hstep : stepEv (maxCfg w M) f s (.call t a) =
          startTimer
            { s with
                lastArgs := some a, lastCallTime := some t,
                lastInvokeTime := t }
            t w := by
        simp only [stepEv]
        have := @debouncedCall_fresh_window α ρ (maxCfg w M) f t a s hsi hth hm rfl
        simpa [maxCfg] using this
      rw [hstep]
      have hmaxw : max w 0 = w := by omega
      refine ⟨hm, ?_, by simp only [startTimer]; omega, ?_,
        by simp [startTimer], ?_, ?_, ?_, ?_, ?_, ?_⟩
      · simp only [startTimer]; omega
      · intro τ' hτ'
        simp [startTimer] at hτ'
        omega
      · intro p hp
        simp only [startTimer, List.mem_cons] at hp
        rcases hp with hp | hp
        · left; rw [hp]; simp [startTimer, jsNum, hmaxw]
        · rcases hb p hp with h | h
          · left; simp [startTimer, jsNum]; omega
          · right
            simp only [startTimer]
            omega
      · intro h hh
        simp only [startTimer] at hh ⊢
        injection hh with hh
        refine ⟨by omega, t + max w 0, ?_⟩
        rw [← hh]
        exact List.mem_cons_self _ _
      · intro T a' l hl
        simp only [startTimer, hinv0] at hl
        cases hl
      · intro _ T a' l hl
        simp only [startTimer, hinv0] at hl
        cases hl
      · intro _ T a' l hl
        simp only [startTimer, hinv0] at hl
        cases hl
      · simp [startTimer, hinv0, logGapsLt]
    | true =>
      -- maxing tight-loop branch: immediate invocation
      have hstep : stepEv (maxCfg w M) f s (.call t a) =
          (invokeFunc f t (startTimer
            { s with lastArgs := some a, lastCallTime := some t }
            t w)).1 := by
        simp only [stepEv]
        have := @debouncedCall_maxing_invoke α ρ (maxCfg w M) f t a s hsi hth rfl
        simpa [maxCfg] using this
      have hmaxw : max w 0 = w := by omega
      have hgapgoal : ∀ T a' l, s.invocations = (T, a') :: l → t - T < M + w := by
        intro T a' l hl
        obtain ⟨hliT, τ, hlc, hτb⟩ := hc T a' l hl
        obtain ⟨h0', hid⟩ : ∃ h0', s.timerId = some h0' := by
          cases hid : s.timerId with
          | none => rw [hid] at hth; simp [truthyHandle] at hth
          | some h => exact ⟨h, rfl⟩
        obtain ⟨hh1, d, hdmem⟩ := hi h0' hid
        have htd := hall _ hdmem
        rcases hb _ hdmem with hx | hx
        · rw [hlc] at hx
          simp only [jsNum] at hx
          omega
        · omega
      rw [hstep]
      simp only [invokeFunc, startTimer]
      refine ⟨hm, by simp, by simp, ?_, by simp, ?_, ?_, ?_, ?_, ?_, ?_⟩
      · intro τ' hτ'
        simp at hτ'
        omega
      · intro p hp
        simp only [List.mem_cons] at hp
        rcases hp with hp | hp
        · left; rw [hp]; simp [startTimer, jsNum, hmaxw]
        · rcases hb p hp with h | h
          · left; simp [startTimer, jsNum]; omega
          · right; simp; omega
      · intro h hh
        simp only at hh
        injection hh with hh
        refine ⟨by omega, t + max w 0, ?_⟩
        rw [← hh]
        exact List.mem_cons_self _ _
      · intro T a' l hl
        simp only [List.cons.injEq, Prod.mk.injEq] at hl
        obtain ⟨⟨hTt, -⟩, -⟩ := hl
        exact ⟨by dsimp only; omega, t, rfl, by omega⟩
      · intro _ T a' l hl
        simp only [List.cons.injEq, Prod.mk.injEq] at hl
        obtain ⟨⟨hTt, -⟩, -⟩ := hl
        simp [jsNum]
        omega
      · intro hfalse
        simp [truthyHandle] at hfalse
        omega
      · simp only [logGapsLt]
        cases hinvs : s.invocations with
        | nil => simp [logGapsLt]
        | cons p l =>
          have := hgapgoal p.1 p.2 l (by rw [hinvs])
          rw [hinvs] at hj
          simp only [logGapsLt, Bool.and_eq_true, decide_eq_true_eq]
          exact ⟨this, hj⟩

lemma inv2_fire {w M now t : Int} {hh : Nat} {f : List α → ρ}
    {s : DState α ρ} (hw : 1 ≤ w) (hM : w ≤ M)
    (hInv : Inv2 w M now s) (_h0 : 0 ≤ now) (hnt : now ≤ t)
    (_hall : ∀ p ∈ s.liveTimers, t ≤ p.2)
    (hfired : ∃ p ∈ s.liveTimers, p.1 = hh ∧ p.2 = t) :
    Inv2 w M t (stepEv (maxCfg w M) f s (.fire t hh)) := by
  obtain ⟨hm, hnh, hli, hg, ho, hb, hi, hc, hd, he, hj⟩ := hInv
  obtain ⟨pf, hpfmem, -, hpft⟩ := hfired
  have hlcs : ∃ τ, s.lastCallTime = some τ := by
    cases hlc : s.lastCallTime with
    | none =>
      rw [ho hlc] at hpfmem
      simp at hpfmem
    | some τ => exact ⟨τ, rfl⟩
  obtain ⟨τ, hlc⟩ := hlcs
  obtain ⟨hτ1, hτnow⟩ := hg τ hlc
  -- the fired timeout is still subject to the due-time bound
  have hfb : t ≤ τ + w ∨ t ≤ s.lastInvokeTime + M := by
    rcases hb pf hpfmem with hx | hx
    · left; rw [hlc] at hx; simp only [jsNum] at hx; omega
    · right; omega
  have hstep0 : stepEv (maxCfg w M) f s (.fire t hh) =
      (timerExpired (maxCfg w M) f t
        ({ s with liveTimers := s.liveTimers.filter (fun p => p.1 != hh) }
          : DState α ρ)).1 := rfl
  have hfsub : ∀ p, p ∈ s.liveTimers.filter (fun p => p.1 != hh) →
      p ∈ s.liveTimers := fun p hp => List.mem_of_mem_filter hp
  cases hsi : shouldInvoke (maxCfg w M)
      ({ s with liveTimers := s.liveTimers.filter (fun p => p.1 != hh) }
        : DState α ρ) t with
  | false =>
    obtain ⟨htr, hc0, hc1, hc2⟩ := (shouldInvoke_false_iff hm).1 hsi
    have hc1w : t - τ < w := by
      rw [hlc] at hc1; simpa [maxCfg, jsNum] using hc1
    have htlim : t - s.lastInvokeTime < M := by simpa [maxCfg] using hc2 rfl
    have hrw : remainingWaitFn (maxCfg w M)
        ({ s with liveTimers := s.liveTimers.filter (fun p => p.1 != hh) }
          : DState α ρ) t = min (w - (t - τ)) (M - (t - s.lastInvokeTime)) := by
      simp [remainingWaitFn, maxCfg, hlc, jsNum]
    have hstep : stepEv (maxCfg w M) f s (.fire t hh) =
        startTimer
          ({ s with liveTimers := s.liveTimers.filter (fun p => p.1 != hh) }
            : DState α ρ)
          t (min (w - (t - τ)) (M - (t - s.lastInvokeTime))) := by
      rw [hstep0, timerExpired_reschedule hsi, hrw]
    rw [hstep]
    have hmaxd : max (min (w - (t - τ)) (M - (t - s.lastInvokeTime))) 0 =
        min (w - (t - τ)) (M - (t - s.lastInvokeTime)) := by omega
    refine ⟨hm, by simp [startTimer], by simp [startTimer]; omega, ?_,
      by simp [startTimer, hlc], ?_, ?_, ?_, ?_, ?_, hj⟩
    · intro τ' hτ'
      simp [startTimer, hlc] at hτ'
      omega
    · intro p hp
      simp only [startTimer, List.mem_cons] at hp
      rcases hp with hp | hp
      · left
        rw [hp]
        simp [startTimer, jsNum, hlc, hmaxd]
        omega
      · rcases hb p (hfsub p hp) with h | h
        · left; simpa [startTimer, jsNum, hlc] using h
        · right; simpa [startTimer] using h
    · intro h hhid
      simp only [startTimer] at hhid ⊢
      injection hhid with hhid
      refine ⟨by omega,
        t + max (min (w - (t - τ)) (M - (t - s.lastInvokeTime))) 0, ?_⟩
      rw [← hhid]
      exact List.mem_cons_self _ _
    · intro T a' l hl
      simp only [startTimer] at hl
      obtain ⟨hliT, τ', hτ', hτ'b⟩ := hc T a' l hl
      rw [hlc] at hτ'
      injection hτ' with hτ'
      exact ⟨hliT, τ, by simp [startTimer, hlc], by omega⟩
    · intro hargs T a' l hl
      simp only [startTimer] at hargs hl
      have := hd hargs T a' l hl
      simpa [startTimer] using this
    · intro hfalse
      simp [startTimer, truthyHandle] at hfalse
      omega
  | true =>
    cases hargs : s.lastArgs with
    | some la =>
      have hstate : stepEv (maxCfg w M) f s (.fire t hh) =
          { s with
              liveTimers := s.liveTimers.filter (fun p => p.1 != hh),
              timerId := none, lastArgs := none, lastInvokeTime := t,
              result := some (f la),
              invocations := (t, la) :: s.invocations } := by
        rw [hstep0, timerExpired_invoke hsi rfl (by simp [hargs])]
        simp [invokeFunc, hargs]
      rw [hstate]
      have hgapgoal : ∀ T a' l, s.invocations = (T, a') :: l →
          t - T < M + w := by
        intro T a' l hl
        obtain ⟨hliT, τ', hτ', hτ'b⟩ := hc T a' l hl
        rw [hlc] at hτ'
        injection hτ' with hτ'
        omega
      refine ⟨hm, hnh, by simp, ?_, by simp [hlc], ?_, by simp, ?_, ?_, ?_, ?_⟩
      · intro τ' hτ'
        simp [hlc] at hτ'
        omega
      · intro p hp
        simp only [List.mem_cons] at hp
        rcases hb p (hfsub p hp) with h | h
        · left; simpa [jsNum, hlc] using h
        · right; simp; omega
      · intro T a' l hl
        simp only [List.cons.injEq, Prod.mk.injEq] at hl
        obtain ⟨⟨hTt, -⟩, -⟩ := hl
        exact ⟨by dsimp only; omega, τ, by simp [hlc], by omega⟩
      · intro _ T a' l hl
        simp only [List.cons.injEq, Prod.mk.injEq] at hl
        obtain ⟨⟨hTt, -⟩, -⟩ := hl
        simp [jsNum, hlc]
        omega
      · intro _ T a' l hl
        simp only [List.cons.injEq, Prod.mk.injEq] at hl
        obtain ⟨⟨hTt, -⟩, -⟩ := hl
        simp [jsNum, hlc]
        omega
      · simp only [logGapsLt]
        cases hinvs : s.invocations with
        | nil => simp [logGapsLt]
        | cons p l =>
          have := hgapgoal p.1 p.2 l (by rw [hinvs])
          rw [hinvs] at hj
          simp only [logGapsLt, Bool.and_eq_true, decide_eq_true_eq]
          exact ⟨this, hj⟩
    | none =>
      have hstate : stepEv (maxCfg w M) f s (.fire t hh) =
          { s with
              liveTimers := s.liveTimers.filter (fun p => p.1 != hh),
              timerId := none, lastArgs := none } := by
        rw [hstep0, timerExpired_clear hsi (by simp [hargs])]
      rw [hstate]
      refine ⟨hm, hnh, by simp; omega, ?_, by simp [hlc], ?_, by simp, ?_, ?_, ?_, hj⟩
      · intro τ' hτ'
        simp [hlc] at hτ'
        omega
      · intro p hp
        simp only [List.mem_cons] at hp
        rcases hb p (hfsub p hp) with h | h
        · left; simpa [jsNum, hlc] using h
        · right; simpa using h
      · intro T a' l hl
        simp only at hl
        obtain ⟨hliT, τ', hτ', hτ'b⟩ := hc T a' l hl
        rw [hlc] at hτ'
        injection hτ' with hτ'
        exact ⟨hliT, τ, by simp [hlc], by omega⟩
      · intro _ T a' l hl
        simp only at hl
        have := hd hargs T a' l hl
        simpa using this
      · intro _ T a' l hl
        simp only at hl
        have := hd hargs T a' l hl
        simp [jsNum] at this ⊢
        omega

lemma debouncedCall_lastCallTime {cfg : Cfg} {f : List α → ρ} {t : Int}
    {args : List α} {s : DState α ρ} :
    (debouncedCall cfg f t args s).1.lastCallTime = some t := by
  unfold debouncedCall
  dsimp only
  repeat' split
  all_goals simp [invokeFunc, startTimer]

lemma timerExpired_lastCallTime {cfg : Cfg} {f : List α → ρ} {t : Int}
    {s : DState α ρ} :
    (timerExpired cfg f t s).1.lastCallTime = s.lastCallTime := by
  unfold timerExpired trailingEdge
  dsimp only
  repeat' split
  all_goals simp [invokeFunc, startTimer]

lemma c2_main {w M : Int} (hw : 1 ≤ w) (hM : w ≤ M) (f : List α → ρ) :
    ∀ (es : List (Ev α)) (now : Int) (s : DState α ρ),
      0 ≤ now → Inv2 w M now s →
      onlyCallFire es = true →
      callGapsLt w s.lastCallTime es = true →
      promptOk (maxCfg w M) f now s es = true →
      logGapsLt (M + w) (runEvents (maxCfg w M) f s es).invocations = true := by
  intro es
  induction es with
  | nil =>
    intro now s _ hInv _ _ _
    exact hInv.2.2.2.2.2.2.2.2.2.2
  | cons e rest ih =>
    intro now s h0 hInv ho hg hv
    cases e with
    | call t a =>
      simp only [onlyCallFire] at ho
      simp only [callGapsLt, Bool.and_eq_true, decide_eq_true_eq] at hg
      obtain ⟨⟨h1t, hgap0⟩, hgrest⟩ := hg
      simp only [promptOk, Ev.time, Bool.and_eq_true, decide_eq_true_eq,
        List.all_eq_true] at hv
      obtain ⟨⟨⟨hnowt, hall⟩, -⟩, hvrest⟩ := hv
      have hgap : ∀ τ, s.lastCallTime = some τ → t - τ < w := by
        intro τ hτ
        rw [hτ] at hgap0
        simpa using hgap0
      have hnext := inv2_call (a := a) (f := f) hw hM hInv h0 hnowt hall h1t hgap
      rw [runEvents]
      refine ih t _ (by omega) hnext ho ?_ hvrest
      have : (stepEv (maxCfg w M) f s (.call t a)).lastCallTime = some t := by
        simp only [stepEv]
        exact debouncedCall_lastCallTime
      rw [this]
      exact hgrest
    | fire t hh =>
      simp only [onlyCallFire] at ho
      simp only [callGapsLt] at hg
      simp only [promptOk, Ev.time, Bool.and_eq_true, decide_eq_true_eq,
        List.all_eq_true, List.any_eq_true] at hv
      obtain ⟨⟨⟨hnowt, hall⟩, p, hpmem, hpeq⟩, hvrest⟩ := hv
      simp only [Bool.and_eq_true, beq_iff_eq] at hpeq
      have hnext := inv2_fire (f := f) hw hM hInv h0 hnowt hall
        ⟨p, hpmem, hpeq.1, hpeq.2⟩
      rw [runEvents]
      refine ih t _ (by omega) hnext ho ?_ hvrest
      have : (stepEv (maxCfg w M) f s (.fire t hh)).lastCallTime =
          s.lastCallTime := by
        simp only [stepEv]
        exact timerExpired_lastCallTime
      rw [this]
      exact hg
    | flushE t => simp [onlyCallFire] at ho
    | cancelE t => simp [onlyCallFire] at ho
    | unmountE t => simp [onlyCallFire] at ho

/-- Claim C2 (amended): with `maxWait = M ≥ wait = w ≥ 1`, default edges
and a prompt scheduler, consecutive invocations in any call/fire run are
strictly less than `M + w` apart (the claimed bound `≤ M` fails, see the
counterexample; `M + w` is the tight ceiling the code guarantees). -/
theorem maxWait_interval_bound (w M : Int) (hw : 1 ≤ w) (hM : w ≤ M)
    (f : List α → ρ) (es : List (Ev α))
    (honly : onlyCallFire es = true)
    (hgaps : callGapsLt w none es = true)
    (hprompt : promptOk (maxCfg w M) f 0 (initState α ρ) es = true) :
    logGapsLt (M + w)
      (runEvents (maxCfg w M) f (initState α ρ) es).invocations = true := by
  have hInv0 : Inv2 w M 0 (initState α ρ) := by
    refine ⟨rfl, le_refl 1, le_refl 0, ?_, fun _ => rfl, ?_, ?_, ?_, ?_, ?_, rfl⟩
    · intro τ hτ; cases hτ
    · intro p hp; simp [initState] at hp
    · intro h hh; cases hh
    · intro T a l hl; cases hl
    · intro _ T a l hl; cases hl
    · intro _ T a l hl; cases hl
  exact c2_main hw hM f es 0 (initState α ρ) (le_refl 0) hInv0 honly hgaps hprompt

theorem maxWait_interval_bound_witness :
    logGapsLt (150 + 100)
      (runEvents (maxCfg 100 150) (fun l : List Nat => l.sum)
        (initState Nat Nat)
        [.call 1 [1], .call 41 [2], .fire 101 1, .call 121 [3],
          .fire 141 2, .fire 151 3]).invocations = true :=
  maxWait_interval_bound 100 150 (by decide) (by decide)
    (fun l : List Nat => l.sum)
    [.call 1 [1], .call 41 [2], .fire 101 1, .call 121 [3], .fire 141 2,
      .fire 151 3]
    (by decide) (by decide) (by decide)
